import Mathlib

/-!
Shallow embedding of the invoice-splitter allocation engine and ledger
transaction manager, translated from the Python sources under
`src/invoice_splitter/`.

Representation conventions used throughout:

* Monetary `Decimal` values in the program always carry two fractional
  digits (they are produced by `quantize(0.01)`), so they are embedded as
  integer numbers of cents (`Int`).
* Percentages (`Decimal` with two fractional digits, range 0..100) are
  embedded as integers at scale 2 (`40.91` becomes `4091`).
* Tax rates (quantized to `0.0001` by `parse_iva`) are embedded as
  integers at scale 4 (`0.15` becomes `1500`).
* `Decimal.quantize(0.01, ROUND_HALF_UP)` applied to a product or quotient
  becomes `roundHalfUp num den` below; applied to a value that is already
  an integer number of cents (sums, differences) it is the identity and is
  dropped, with a comment at each such spot.
* Python exceptions become `Except Err`; the `Err` constructors record the
  distinct `raise` sites of the sources.
-/

/-- ROUND_HALF_UP division: the integer nearest to `num / den` with ties
rounded away from zero, for `den > 0`.  This is the meaning of
`Decimal.quantize(TWOPLACES, rounding=ROUND_HALF_UP)` (`q2` in
`rules/common.py`) once the argument is expressed as the fraction
`num / den` in cents. -/
def roundHalfUp (num : Int) (den : Nat) : Int :=
  if 0 ≤ num then ((2 * num.toNat + den) / (2 * den) : Nat)
  else -(((2 * num.natAbs + den) / (2 * den) : Nat))

/-- `calc_iva_and_total` from `rules/common.py`: `iva = q2(subtotal * iva_rate)`,
`total = q2(subtotal + iva)`.  `subtotal` is in cents, `rate` at scale 4, so
`subtotal * iva_rate` in cents is `subtotal * rate / 10^4`; the outer `q2`
of the total is the identity on a sum of cents. -/
def calc_iva_and_total (subtotal rate : Int) : Int × Int :=
  let iva := roundHalfUp (subtotal * rate) 10000
  (iva, subtotal + iva)

/-- `models.Allocation`: one requested split line.  `percent` is at scale 2
(`40.91` ↦ `4091`), `amount` in cents. -/
structure Allocation where
  concept : Option String
  cc : Int
  gl_account : Int
  percent : Option Int
  amount : Option Int
deriving DecidableEq

/-- The distinct error exits of the embedded code.  Python raises
`ValueError` / `ExcelWriteError` with messages; each constructor stands for
one raise site, and `reconciliation` carries the numbers interpolated into
its message (computed total, subtotal, difference). -/
inductive Err where
  | invalidMode : Err
  | emptyAllocations : Err
  | reconciliation (total subtotal diff : Int) : Err
  | missingAccount : Err
  | unknownVendorRule (vendorId : Int) : Err
  | missingKeyColumns : Err
  | unknownColumn : Err
  | saveRejected : Err
  | validationEmpty : Err
  | validationNonDigit : Err
  | validationTooLong : Err
deriving DecidableEq

/-- The per-line amounts computed by `validate_and_compute_allocations`
before reconciliation.  In percent mode
`q2(subtotal * pct / 100) = roundHalfUp (subtotal * pct) 10000` (subtotal
in cents, pct at scale 2, missing percent treated as `Decimal("0")`); in
amount mode `q2(amount)` is the identity on cents, missing amount treated
as `Decimal("0")`. -/
def computeAmounts (subtotal : Int) (mode : String) (allocations : List Allocation) : List Int :=
  if mode = "percent" then
    allocations.map (fun a => roundHalfUp (subtotal * a.percent.getD 0) 10000)
  else
    allocations.map (fun a => a.amount.getD 0)

/-- `amounts[-1] = q2(amounts[-1] + diff)`: add `diff` to the last element
(the `q2` is the identity on a sum of cents). -/
def addToLast : List Int → Int → List Int
  | [], _ => []
  | [a], d => [a + d]
  | a :: b :: rest, d => a :: addToLast (b :: rest) d

/-- `validate_and_compute_allocations` from `rules/common.py`.
`tolerance` is in cents (the default `TOLERANCE = Decimal("0.01")` is `1`).
`total = q2(sum(amounts))` and `diff = q2(subtotal - total)` are identities
on cents and are written without `q2`. -/
def validate_and_compute_allocations (subtotal : Int) (mode : String)
    (allocations : List Allocation) (tolerance : Int) :
    Except Err (List (Allocation × Int)) :=
  if mode ≠ "percent" ∧ mode ≠ "amount" then
    .error .invalidMode
  else if allocations = [] then
    .error .emptyAllocations
  else
    let amounts := computeAmounts subtotal mode allocations
    let total := amounts.sum
    let diff := subtotal - total
    if tolerance < |diff| then
      .error (.reconciliation total subtotal diff)
    else
      let amounts := if diff ≠ 0 then addToLast amounts diff else amounts
      .ok (allocations.zip amounts)

lemma addToLast_length (l : List Int) (d : Int) : (addToLast l d).length = l.length := by
  induction l with
  | nil => rfl
  | cons a t ih =>
    cases t with
    | nil => rfl
    | cons b r => simpa [addToLast] using ih

lemma addToLast_sum (l : List Int) (d : Int) (h : l ≠ []) :
    (addToLast l d).sum = l.sum + d := by
  induction l with
  | nil => exact absurd rfl h
  | cons a t ih =>
    cases t with
    | nil => simp [addToLast]
    | cons b r =>
      have := ih (by simp)
      simp [addToLast] at this ⊢
      omega

lemma addToLast_dropLast (l : List Int) (d : Int) :
    (addToLast l d).dropLast = l.dropLast := by
  induction l with
  | nil => rfl
  | cons a t ih =>
    cases t with
    | nil => rfl
    | cons b r =>
      have hlen : (addToLast (b :: r) d).length = (b :: r).length := addToLast_length _ _
      cases hrec : addToLast (b :: r) d with
      | nil => simp [hrec] at hlen
      | cons x xs =>
        simp [addToLast, hrec, List.dropLast_cons_of_ne_nil]
        have : (x :: xs).dropLast = (b :: r).dropLast := by rw [← hrec]; exact ih
        simpa using this

lemma computeAmounts_length (s : Int) (mode : String) (l : List Allocation) :
    (computeAmounts s mode l).length = l.length := by
  unfold computeAmounts
  split <;> simp

example : roundHalfUp 5 10 = 1 := by decide
example : roundHalfUp 4 10 = 0 := by decide
example : roundHalfUp (-5) 10 = -1 := by decide
example : roundHalfUp (-4) 10 = 0 := by decide

/-- The amounts actually returned by `validate_and_compute_allocations` in
the success case: the computed amounts, with the difference to the subtotal
added to the last one when it is nonzero. -/
def reconciledAmounts (subtotal : Int) (mode : String) (allocations : List Allocation) : List Int :=
  if subtotal - (computeAmounts subtotal mode allocations).sum ≠ 0 then
    addToLast (computeAmounts subtotal mode allocations)
      (subtotal - (computeAmounts subtotal mode allocations).sum)
  else
    computeAmounts subtotal mode allocations

lemma validate_unfold_valid (s : Int) (mode : String) (allocs : List Allocation) (tol : Int)
    (hmode : mode = "percent" ∨ mode = "amount") (hne : allocs ≠ []) :
    validate_and_compute_allocations s mode allocs tol =
      if tol < |s - (computeAmounts s mode allocs).sum| then
        .error (.reconciliation (computeAmounts s mode allocs).sum s
          (s - (computeAmounts s mode allocs).sum))
      else
        .ok (allocs.zip (reconciledAmounts s mode allocs)) := by
  have h1 : ¬(mode ≠ "percent" ∧ mode ≠ "amount") := by tauto
  unfold validate_and_compute_allocations reconciledAmounts
  rw [if_neg h1, if_neg hne]

lemma reconciledAmounts_length (s : Int) (mode : String) (allocs : List Allocation) :
    (reconciledAmounts s mode allocs).length = allocs.length := by
  unfold reconciledAmounts
  split
  · rw [addToLast_length, computeAmounts_length]
  · exact computeAmounts_length s mode allocs

lemma reconciledAmounts_sum (s : Int) (mode : String) (allocs : List Allocation)
    (hne : allocs ≠ []) : (reconciledAmounts s mode allocs).sum = s := by
  unfold reconciledAmounts
  have hlen : (computeAmounts s mode allocs).length = allocs.length :=
    computeAmounts_length s mode allocs
  have hnenil : computeAmounts s mode allocs ≠ [] := by
    intro h
    apply hne
    rw [h] at hlen
    exact List.length_eq_zero.mp hlen.symm
  split
  · rw [addToLast_sum _ _ hnenil]; omega
  · omega

/-- C1: for a two-decimal subtotal (any integer number of cents), a valid
mode, a non-empty allocation list, and computed per-line amounts whose sum
is within tolerance of the subtotal, `validate_and_compute_allocations`
returns one `(allocation, amount)` pair per input allocation in input
order, with the (possibly zero) difference added to the last amount only,
so that the returned amounts sum exactly to the subtotal. -/
theorem validate_within_tolerance_ok (s : Int) (mode : String)
    (allocs : List Allocation) (tol : Int)
    (hmode : mode = "percent" ∨ mode = "amount")
    (hne : allocs ≠ [])
    (htol : |s - (computeAmounts s mode allocs).sum| ≤ tol) :
    validate_and_compute_allocations s mode allocs tol =
        .ok (allocs.zip (reconciledAmounts s mode allocs))
      ∧ (allocs.zip (reconciledAmounts s mode allocs)).map Prod.fst = allocs
      ∧ (allocs.zip (reconciledAmounts s mode allocs)).map Prod.snd =
          reconciledAmounts s mode allocs
      ∧ (reconciledAmounts s mode allocs).length = allocs.length
      ∧ (reconciledAmounts s mode allocs).sum = s
      ∧ (reconciledAmounts s mode allocs).dropLast =
          (computeAmounts s mode allocs).dropLast := by
  have hlen : (reconciledAmounts s mode allocs).length = allocs.length :=
    reconciledAmounts_length s mode allocs
  refine ⟨?_, ?_, ?_, hlen, reconciledAmounts_sum s mode allocs hne, ?_⟩
  · rw [validate_unfold_valid s mode allocs tol hmode hne, if_neg (not_lt.mpr htol)]
  · exact List.map_fst_zip _ _ (le_of_eq hlen.symm)
  · exact List.map_snd_zip _ _ (le_of_eq hlen)
  · unfold reconciledAmounts
    split
    · exact addToLast_dropLast _ _
    · rfl

/-- Witness for C1: subtotal 100.00, percent mode, 60%/40% split. -/
theorem validate_within_tolerance_ok_witness :
    validate_and_compute_allocations 10000 "percent"
        [⟨none, 1, 10, some 6000, none⟩, ⟨none, 2, 20, some 4000, none⟩] 1 =
      .ok [(⟨none, 1, 10, some 6000, none⟩, 6000), (⟨none, 2, 20, some 4000, none⟩, 4000)] := by
  have h := validate_within_tolerance_ok 10000 "percent"
    [⟨none, 1, 10, some 6000, none⟩, ⟨none, 2, 20, some 4000, none⟩] 1
    (Or.inl rfl) (by decide) (by decide)
  rw [h.1]
  rfl

/-- C2: `validate_and_compute_allocations` fails exactly when the mode is
invalid, the allocation list is empty, or the difference between subtotal
and the computed total exceeds the tolerance; the reconciliation error
carries the computed total, the subtotal, and the difference, and in every
other case the function returns normally. -/
theorem validate_failure_characterization (s : Int) (mode : String)
    (allocs : List Allocation) (tol : Int) :
    ((mode ≠ "percent" ∧ mode ≠ "amount") →
        validate_and_compute_allocations s mode allocs tol = .error .invalidMode)
    ∧ ((mode = "percent" ∨ mode = "amount") → allocs = [] →
        validate_and_compute_allocations s mode allocs tol = .error .emptyAllocations)
    ∧ ((mode = "percent" ∨ mode = "amount") → allocs ≠ [] →
        tol < |s - (computeAmounts s mode allocs).sum| →
        validate_and_compute_allocations s mode allocs tol =
          .error (.reconciliation (computeAmounts s mode allocs).sum s
            (s - (computeAmounts s mode allocs).sum)))
    ∧ ((mode = "percent" ∨ mode = "amount") → allocs ≠ [] →
        |s - (computeAmounts s mode allocs).sum| ≤ tol →
        validate_and_compute_allocations s mode allocs tol =
          .ok (allocs.zip (reconciledAmounts s mode allocs)))
    ∧ (∀ e, validate_and_compute_allocations s mode allocs tol = .error e →
        e = .invalidMode ∨ e = .emptyAllocations ∨
          e = .reconciliation (computeAmounts s mode allocs).sum s
                (s - (computeAmounts s mode allocs).sum)) := by
  refine ⟨?_, ?_, ?_, ?_, ?_⟩
  · intro h
    unfold validate_and_compute_allocations
    simp [h]
  · intro hmode hnil
    unfold validate_and_compute_allocations
    have h1 : ¬(mode ≠ "percent" ∧ mode ≠ "amount") := by tauto
    simp [h1, hnil]
  · intro hmode hne htol
    rw [validate_unfold_valid s mode allocs tol hmode hne, if_pos htol]
  · intro hmode hne htol
    rw [validate_unfold_valid s mode allocs tol hmode hne, if_neg (not_lt.mpr htol)]
  · intro e he
    by_cases hmode : mode = "percent" ∨ mode = "amount"
    · by_cases hne : allocs = []
      · right; left
        unfold validate_and_compute_allocations at he
        have h1 : ¬(mode ≠ "percent" ∧ mode ≠ "amount") := by tauto
        simp [h1, hne] at he
        exact he.symm
      · rw [validate_unfold_valid s mode allocs tol hmode hne] at he
        by_cases htol : tol < |s - (computeAmounts s mode allocs).sum|
        · rw [if_pos htol] at he
          right; right
          exact (Except.error.injEq _ _).mp he.symm
        · rw [if_neg htol] at he
          exact absurd he (by simp)
    · left
      unfold validate_and_compute_allocations at he
      rw [not_or] at hmode
      simp [hmode.1, hmode.2] at he
      exact he.symm

/-- Witness for C2: an unknown mode string fails with the invalid-mode
error. -/
theorem validate_failure_characterization_witness :
    validate_and_compute_allocations 100 "modo" [] 1 = .error .invalidMode :=
  (validate_failure_characterization 100 "modo" [] 1).1 (by decide)

/-- Fill an allocation's missing split fields with explicit zeros, the way
`validate_and_compute_allocations` reads them. -/
def zeroFilled (a : Allocation) : Allocation :=
  { a with percent := some (a.percent.getD 0), amount := some (a.amount.getD 0) }

/-- C10: a missing `percent`/`amount` field never makes
`validate_and_compute_allocations` fail by itself: the missing field is
read as zero (`q2(subtotal*0/100) = 0.00` in percent mode, `0.00` in
amount mode), the computed amounts agree with those of the zero-filled
list, and with a valid mode and a non-empty list the only possible
rejection is the reconciliation check. -/
theorem validate_missing_fields_as_zero (s : Int) (mode : String)
    (allocs : List Allocation) (tol : Int)
    (hmode : mode = "percent" ∨ mode = "amount") (hne : allocs ≠ []) :
    computeAmounts s mode (allocs.map zeroFilled) = computeAmounts s mode allocs
    ∧ (∀ a : Allocation, a.percent = none →
        roundHalfUp (s * a.percent.getD 0) 10000 = 0)
    ∧ (∀ a : Allocation, a.amount = none → a.amount.getD 0 = 0)
    ∧ (∀ e, validate_and_compute_allocations s mode allocs tol = .error e →
        ∃ t d, e = .reconciliation t s d) := by
  refine ⟨?_, ?_, ?_, ?_⟩
  · unfold computeAmounts
    split <;> rw [List.map_map] <;> exact List.map_congr_left (fun a _ => by
      simp [zeroFilled, Function.comp])
  · intro a h
    simp [h, roundHalfUp]
  · intro a h
    simp [h]
  · intro e he
    rw [validate_unfold_valid s mode allocs tol hmode hne] at he
    by_cases htol : tol < |s - (computeAmounts s mode allocs).sum|
    · rw [if_pos htol] at he
      refine ⟨(computeAmounts s mode allocs).sum, s - (computeAmounts s mode allocs).sum, ?_⟩
      exact ((Except.error.injEq _ _).mp he).symm
    · rw [if_neg htol] at he
      exact absurd he (by simp)

/-- Witness for C10: percent mode with one allocation whose percent is
missing and one covering 100%. -/
theorem validate_missing_fields_as_zero_witness :
    computeAmounts 10000 "percent"
        ([⟨none, 1, 10, none, none⟩, ⟨none, 2, 20, some 10000, none⟩].map zeroFilled) =
      computeAmounts 10000 "percent"
        [⟨none, 1, 10, none, none⟩, ⟨none, 2, 20, some 10000, none⟩] :=
  (validate_missing_fields_as_zero 10000 "percent"
    [⟨none, 1, 10, none, none⟩, ⟨none, 2, 20, some 10000, none⟩] 1
    (Or.inl rfl) (by decide)).1

/-- `models.InvoiceInput`, restricted to the fields the embedded rules
read.  `extras` is an open key-value bag in the source; the rules read the
keys `cc`, `gl_account` and `custom_concept` (plus purely informational
numeric fields such as bandwidth or phone-line counts, which are copied
verbatim into payload columns no claim mentions and are not modelled).
`subtotal` is in cents, `iva_rate` at scale 4. -/
structure InvoiceInput where
  vendor_id : Int
  vendor_name : String
  bill_number : String
  subtotal : Int
  iva_rate : Int
  service_concept : Option String
  service_type : Option String
  alloc_mode : Option String
  allocations : List Allocation
  extras_cc : Option Int
  extras_gl_account : Option Int
  extras_custom_concept : Option String
deriving DecidableEq

/-- `models.LineItem`, restricted to the accounting columns.  The source
stores a dict of column name to value; the date, bill number, vendor id
and vendor name columns are copied verbatim from the invoice on every
line, and vendor payload columns (bandwidth, channels, licences, phone
lines, prices) are copied from `extras`; no claim mentions them and they
are not modelled. -/
structure LineItem where
  table_name : String
  concept : String
  cc : Int
  gl_account : Int
  subtotal_assigned : Int
  iva_rate : Int
  iva_assigned : Int
  total_assigned : Int
deriving DecidableEq

/-- The `_make_*_line` helpers shared shape: a row for `table` carrying the
assigned subtotal and the tax and total recomputed from it. -/
def mk_line (table concept : String) (cc gl amt rate : Int) : LineItem :=
  { table_name := table
    concept := concept
    cc := cc
    gl_account := gl
    subtotal_assigned := amt
    iva_rate := rate
    iva_assigned := (calc_iva_and_total amt rate).1
    total_assigned := (calc_iva_and_total amt rate).2 }

@[simp] lemma mk_line_subtotal_assigned (t c : String) (cc gl amt rate : Int) :
    (mk_line t c cc gl amt rate).subtotal_assigned = amt := rfl

@[simp] lemma mk_line_cc (t c : String) (cc gl amt rate : Int) :
    (mk_line t c cc gl amt rate).cc = cc := rfl

@[simp] lemma mk_line_gl (t c : String) (cc gl amt rate : Int) :
    (mk_line t c cc gl amt rate).gl_account = gl := rfl

/-- Python `str.strip()`: drop leading and trailing whitespace.  (Written
out structurally on the character list so that it reduces inside the
kernel; `String.trim` computes the same function.) -/
def pyStrip (s : String) : String :=
  String.mk (((s.toList.dropWhile Char.isWhitespace).reverse.dropWhile
    Char.isWhitespace).reverse)

/-- The `(invoice.service_concept or "").strip() or DEFAULT` idiom: missing
or all-whitespace concept falls back to the default, anything else is
stripped. -/
def concept_or_default (sc : Option String) (dflt : String) : String :=
  match sc with
  | none => dflt
  | some s => if pyStrip s = "" then dflt else pyStrip s

/-- The `(alloc.concept or concept_general).strip()` idiom used by the
per-allocation lines. -/
def alloc_concept (c : Option String) (general : String) : String :=
  pyStrip (match c with
   | none => general
   | some s => if s = "" then general else s)

/-- Python truthiness of `invoice.alloc_mode and invoice.allocations`. -/
def has_custom_split (inv : InvoiceInput) : Prop :=
  inv.alloc_mode.isSome ∧ inv.allocations ≠ []

instance (inv : InvoiceInput) : Decidable (has_custom_split inv) := by
  unfold has_custom_split
  infer_instance

def MOVISTAR_TABLE : String := "Movistar_table"
def MOVISTAR_DEFAULT_CONCEPT : String := "10 lines DRP (4 lines 35 GB + 6 lines 53 GB)"

/-- `build_lines_for_movistar` (`rules/vendor_1260177_movistar.py`).
The standard 60/40 split uses `PCT1 = Decimal("0.60")`, `PCT2 =
Decimal("0.40")`: `q2(subtotal * 0.60) = roundHalfUp (subtotal * 60) 100`
in cents.  The `int(phone_lines)` conversion only feeds the payload column
and is not modelled. -/
def build_lines_for_movistar (inv : InvoiceInput) : Except Err (List LineItem) :=
  let concept := concept_or_default inv.service_concept MOVISTAR_DEFAULT_CONCEPT
  if concept = MOVISTAR_DEFAULT_CONCEPT then
    .ok [mk_line MOVISTAR_TABLE concept 7475036 4649000000
           (roundHalfUp (inv.subtotal * 60) 100) inv.iva_rate,
         mk_line MOVISTAR_TABLE concept 3941036 3649000000
           (roundHalfUp (inv.subtotal * 40) 100) inv.iva_rate]
  else if has_custom_split inv then
    match validate_and_compute_allocations inv.subtotal (inv.alloc_mode.getD "")
        inv.allocations 1 with
    | .error e => .error e
    | .ok pairs =>
        .ok (pairs.map (fun p =>
          mk_line MOVISTAR_TABLE (alloc_concept p.1.concept concept)
            p.1.cc p.1.gl_account p.2 inv.iva_rate))
  else
    match inv.extras_cc, inv.extras_gl_account with
    | some cc, some gl =>
        .ok [mk_line MOVISTAR_TABLE concept cc gl inv.subtotal inv.iva_rate]
    | _, _ => .error .missingAccount

def CIRION_TABLE : String := "Cirion_table"
def CIRION_DEFAULT_CONCEPT : String := "Internet"

/-- `build_lines_for_cirion` (`rules/vendor_1254926_cirion.py`), same
standard 60/40 shape as Movistar with its own table, GL accounts and
default concept.  The `int(bandwidth)` conversion only feeds the payload
column and is not modelled. -/
def build_lines_for_cirion (inv : InvoiceInput) : Except Err (List LineItem) :=
  let concept := concept_or_default inv.service_concept CIRION_DEFAULT_CONCEPT
  if concept = CIRION_DEFAULT_CONCEPT then
    .ok [mk_line CIRION_TABLE concept 7475036 7418000000
           (roundHalfUp (inv.subtotal * 60) 100) inv.iva_rate,
         mk_line CIRION_TABLE concept 3941036 3526400000
           (roundHalfUp (inv.subtotal * 40) 100) inv.iva_rate]
  else if has_custom_split inv then
    match validate_and_compute_allocations inv.subtotal (inv.alloc_mode.getD "")
        inv.allocations 1 with
    | .error e => .error e
    | .ok pairs =>
        .ok (pairs.map (fun p =>
          mk_line CIRION_TABLE (alloc_concept p.1.concept concept)
            p.1.cc p.1.gl_account p.2 inv.iva_rate))
  else
    match inv.extras_cc, inv.extras_gl_account with
    | some cc, some gl =>
        .ok [mk_line CIRION_TABLE concept cc gl inv.subtotal inv.iva_rate]
    | _, _ => .error .missingAccount

/-- The 60/40 ROUND_HALF_UP split of an integer number of cents is always
exact: the two roundings cancel, so no reconciliation cent is ever left
over. -/
lemma sixty_forty_exact (s : Int) :
    roundHalfUp (s * 60) 100 + roundHalfUp (s * 40) 100 = s := by
  unfold roundHalfUp
  split_ifs <;> omega

/-- C4: for an invoice carrying the vendor's default concept, the
standard-schedule strategies of Movistar and Cirion emit exactly the two
hardcoded (cost center, GL account, percent) lines with amounts
`q2(subtotal*pct/100)`, and the reconciliation of the leftover cent into
the last line leaves the amounts unchanged because the 60/40 ROUND_HALF_UP
leftover is always zero, so the emitted "Subtotal assigned" values sum
exactly to the invoice subtotal. -/
theorem standard_schedule_sum_exact (inv : InvoiceInput) :
    (concept_or_default inv.service_concept MOVISTAR_DEFAULT_CONCEPT =
        MOVISTAR_DEFAULT_CONCEPT →
      build_lines_for_movistar inv =
          .ok [mk_line MOVISTAR_TABLE MOVISTAR_DEFAULT_CONCEPT 7475036 4649000000
                 (roundHalfUp (inv.subtotal * 60) 100) inv.iva_rate,
               mk_line MOVISTAR_TABLE MOVISTAR_DEFAULT_CONCEPT 3941036 3649000000
                 (roundHalfUp (inv.subtotal * 40) 100) inv.iva_rate]
        ∧ roundHalfUp (inv.subtotal * 60) 100 + roundHalfUp (inv.subtotal * 40) 100 =
            inv.subtotal)
    ∧ (concept_or_default inv.service_concept CIRION_DEFAULT_CONCEPT =
        CIRION_DEFAULT_CONCEPT →
      build_lines_for_cirion inv =
          .ok [mk_line CIRION_TABLE CIRION_DEFAULT_CONCEPT 7475036 7418000000
                 (roundHalfUp (inv.subtotal * 60) 100) inv.iva_rate,
               mk_line CIRION_TABLE CIRION_DEFAULT_CONCEPT 3941036 3526400000
                 (roundHalfUp (inv.subtotal * 40) 100) inv.iva_rate]
        ∧ roundHalfUp (inv.subtotal * 60) 100 + roundHalfUp (inv.subtotal * 40) 100 =
            inv.subtotal) := by
  constructor
  · intro h
    refine ⟨?_, sixty_forty_exact inv.subtotal⟩
    unfold build_lines_for_movistar
    rw [h]
    simp
  · intro h
    refine ⟨?_, sixty_forty_exact inv.subtotal⟩
    unfold build_lines_for_cirion
    rw [h]
    simp

/-- Witness for C4: a Movistar invoice with the default concept and
subtotal 100.00 splits into 60.00 + 40.00 summing back to 100.00. -/
theorem standard_schedule_sum_exact_witness :
    build_lines_for_movistar
        ⟨1260177, "OTECEL", "000000472", 10000, 1500, none, none, none, [],
          none, none, none⟩ =
        .ok [mk_line MOVISTAR_TABLE MOVISTAR_DEFAULT_CONCEPT 7475036 4649000000
               (roundHalfUp (10000 * 60) 100) 1500,
             mk_line MOVISTAR_TABLE MOVISTAR_DEFAULT_CONCEPT 3941036 3649000000
               (roundHalfUp (10000 * 40) 100) 1500]
      ∧ roundHalfUp (10000 * 60) 100 + roundHalfUp (10000 * 40) 100 = 10000 :=
  (standard_schedule_sum_exact
    ⟨1260177, "OTECEL", "000000472", 10000, 1500, none, none, none, [],
      none, none, none⟩).1 rfl

def OTRO : String := "Otro (personalizado)"

def SIPTRUNK_TABLE : String := "Claro_siptrunk_table"

/-- `SIPTRUNK_FIXED_LINES_ABS` from `rules/vendor_1254902_claro.py`:
(concept, CC, GL, absolute amount in cents). -/
def SIPTRUNK_FIXED_LINES_ABS : List (String × Int × Int × Int) :=
  [("CONECEL (Internet 50 Mbps) - SD WAN", 7475036, 7418000000, 30000),
   ("CONECEL (Internet 50 Mbps) - SD WAN", 3941036, 3526400000, 20000)]

/-- `SIPTRUNK_VARIABLE_LINES`: (concept, CC, GL, percent at scale 2). -/
def SIPTRUNK_VARIABLE_LINES : List (String × Int × Int × Int) :=
  [("Consumos SIP Trunk - Claro ECUADOR", 7000036, 7648100000, 3700),
   ("Consumos SIP Trunk - Claro ECUADOR", 7100036, 7648100000, 1100),
   ("Consumos SIP Trunk - Claro ECUADOR", 7300036, 7648100000, 3200),
   ("Consumos SIP Trunk - Claro ECUADOR", 3941036, 3648000000, 1500),
   ("Consumos SIP Trunk - Claro ECUADOR", 7475036, 7648100000, 500)]

/-- `sign = Decimal("-1") if invoice.subtotal < 0 else Decimal("1")`. -/
def siptrunk_sign (s : Int) : Int := if s < 0 then -1 else 1

/-- `fixed_total = q2(sum(fixed_amounts))` (identity on cents) and
`base = q2(invoice.subtotal - fixed_total)`: the remainder distributed over
the variable lines.  Each fixed amount is `q2(abs(abs_amt) * sign) =
sign * abs_amt` in cents. -/
def siptrunk_base (s : Int) : Int :=
  s - (siptrunk_sign s * 30000 + siptrunk_sign s * 20000)

/-- The five raw variable amounts `q2(base * (pct / 100))`. -/
def siptrunk_raw (s : Int) : List Int :=
  SIPTRUNK_VARIABLE_LINES.map (fun q => roundHalfUp (siptrunk_base s * q.2.2.2) 10000)

/-- The variable amounts after the per-segment adjustment
`diff = q2(base - sum(variable_amounts)); variable_amounts[-1] += diff`. -/
def siptrunk_var_amounts (s : Int) : List Int :=
  if siptrunk_base s - (siptrunk_raw s).sum ≠ 0 then
    addToLast (siptrunk_raw s) (siptrunk_base s - (siptrunk_raw s).sum)
  else
    siptrunk_raw s

/-- The two fixed lines of the siptrunk schedule (sign applied at
line-construction time). -/
def siptrunk_fixed_lines (inv : InvoiceInput) : List LineItem :=
  SIPTRUNK_FIXED_LINES_ABS.map (fun q =>
    mk_line SIPTRUNK_TABLE q.1 q.2.1 q.2.2.1
      (siptrunk_sign inv.subtotal * q.2.2.2) inv.iva_rate)

/-- The five variable lines, one per `SIPTRUNK_VARIABLE_LINES` entry with
the corresponding adjusted amount. -/
def siptrunk_var_lines (inv : InvoiceInput) : List LineItem :=
  (SIPTRUNK_VARIABLE_LINES.zip (siptrunk_var_amounts inv.subtotal)).map (fun q =>
    mk_line SIPTRUNK_TABLE q.1.1 q.1.2.1 q.1.2.2.1 q.2 inv.iva_rate)

/-- `lines = fixed ++ variable` accumulated by `_build_siptrunk`. -/
def siptrunk_all_lines (inv : InvoiceInput) : List LineItem :=
  siptrunk_fixed_lines inv ++ siptrunk_var_lines inv

/-- The final top-level reconciliation of `_build_siptrunk`, `_build_sbc`
and `_build_mobile`: add `final_diff` to the last line's assigned subtotal
and recompute tax and total for that line only. -/
def nudge_last_line (rate d : Int) : List LineItem → List LineItem
  | [] => []
  | [l] =>
      [{ l with
          subtotal_assigned := l.subtotal_assigned + d
          iva_assigned := (calc_iva_and_total (l.subtotal_assigned + d) rate).1
          total_assigned := (calc_iva_and_total (l.subtotal_assigned + d) rate).2 }]
  | l :: l' :: rest => l :: nudge_last_line rate d (l' :: rest)

/-- `_build_custom_into_siptrunk_table`: the "Otro (personalizado)" path of
the Claro siptrunk rule. -/
def _build_custom_into_siptrunk_table (inv : InvoiceInput) : Except Err (List LineItem) :=
  let concept_general := concept_or_default inv.extras_custom_concept "Claro Siptrunk - Custom"
  if has_custom_split inv then
    match validate_and_compute_allocations inv.subtotal (inv.alloc_mode.getD "")
        inv.allocations 1 with
    | .error e => .error e
    | .ok pairs =>
        .ok (pairs.map (fun p =>
          mk_line SIPTRUNK_TABLE (alloc_concept p.1.concept concept_general)
            p.1.cc p.1.gl_account p.2 inv.iva_rate))
  else
    match inv.extras_cc, inv.extras_gl_account with
    | some cc, some gl =>
        .ok [mk_line SIPTRUNK_TABLE concept_general cc gl inv.subtotal inv.iva_rate]
    | _, _ => .error .missingAccount

/-- `_build_siptrunk` (`rules/vendor_1254902_claro.py`): two fixed lines
with the subtotal's sign, five percentage-of-remainder variable lines with
a per-segment adjustment, then a final reconciliation pass across all
seven lines (`final_diff = q2(subtotal - total_assigned)`, identity on
cents). -/
def _build_siptrunk (inv : InvoiceInput) : Except Err (List LineItem) :=
  if concept_or_default inv.service_concept "Claro Siptrunk" = OTRO then
    _build_custom_into_siptrunk_table inv
  else
    let lines := siptrunk_all_lines inv
    let final_diff :=
      inv.subtotal - (lines.map (fun l => l.subtotal_assigned)).sum
    .ok (if final_diff ≠ 0 then nudge_last_line inv.iva_rate final_diff lines else lines)

/-- Observation of a rule result: the per-line assigned subtotals. -/
def line_subtotals : Except Err (List LineItem) → Option (List Int)
  | .ok ls => some (ls.map (fun l => l.subtotal_assigned))
  | .error _ => none

lemma siptrunk_raw_length (s : Int) : (siptrunk_raw s).length = 5 := by
  simp [siptrunk_raw, SIPTRUNK_VARIABLE_LINES]

lemma siptrunk_var_amounts_length (s : Int) : (siptrunk_var_amounts s).length = 5 := by
  unfold siptrunk_var_amounts
  split
  · rw [addToLast_length, siptrunk_raw_length]
  · exact siptrunk_raw_length s

lemma siptrunk_var_amounts_sum (s : Int) :
    (siptrunk_var_amounts s).sum = siptrunk_base s := by
  unfold siptrunk_var_amounts
  have hraw : siptrunk_raw s ≠ [] := by
    intro h
    have := siptrunk_raw_length s
    rw [h] at this
    exact absurd this (by decide)
  split
  · rw [addToLast_sum _ _ hraw]; omega
  · omega

lemma siptrunk_fixed_map_subtotal (inv : InvoiceInput) :
    (siptrunk_fixed_lines inv).map (fun l => l.subtotal_assigned) =
      [siptrunk_sign inv.subtotal * 30000, siptrunk_sign inv.subtotal * 20000] := by
  simp [siptrunk_fixed_lines, SIPTRUNK_FIXED_LINES_ABS]

lemma siptrunk_var_map_subtotal (inv : InvoiceInput) :
    (siptrunk_var_lines inv).map (fun l => l.subtotal_assigned) =
      siptrunk_var_amounts inv.subtotal := by
  unfold siptrunk_var_lines
  rw [List.map_map]
  have hcomp : ((fun l => l.subtotal_assigned) ∘ fun q : (String × Int × Int × Int) × Int =>
      mk_line SIPTRUNK_TABLE q.1.1 q.1.2.1 q.1.2.2.1 q.2 inv.iva_rate) = Prod.snd := by
    funext q; rfl
  rw [hcomp]
  exact List.map_snd_zip _ _ (by rw [siptrunk_var_amounts_length]; decide)

lemma siptrunk_all_map_subtotal (inv : InvoiceInput) :
    (siptrunk_all_lines inv).map (fun l => l.subtotal_assigned) =
      [siptrunk_sign inv.subtotal * 30000, siptrunk_sign inv.subtotal * 20000] ++
        siptrunk_var_amounts inv.subtotal := by
  unfold siptrunk_all_lines
  rw [List.map_append, siptrunk_fixed_map_subtotal, siptrunk_var_map_subtotal]

lemma siptrunk_all_sum (inv : InvoiceInput) :
    ((siptrunk_all_lines inv).map (fun l => l.subtotal_assigned)).sum = inv.subtotal := by
  rw [siptrunk_all_map_subtotal]
  rw [List.sum_append, siptrunk_var_amounts_sum]
  unfold siptrunk_base
  simp

/-- C6: for a Claro siptrunk invoice that does not select the custom
concept (in particular for the default concept), the rule emits the two
fixed lines of magnitudes 300.00 and 200.00 carrying the subtotal's sign
followed by the five variable lines distributing the remainder base by the
fixed percentages with the per-segment difference added to the last
variable line; the final top-level reconciliation pass leaves them
unchanged and the seven assigned subtotals sum exactly to the invoice
subtotal. -/
theorem claro_siptrunk_schedule (inv : InvoiceInput)
    (hconcept : concept_or_default inv.service_concept "Claro Siptrunk" ≠ OTRO) :
    line_subtotals (_build_siptrunk inv) =
        some ([siptrunk_sign inv.subtotal * 30000, siptrunk_sign inv.subtotal * 20000] ++
          siptrunk_var_amounts inv.subtotal)
      ∧ siptrunk_var_amounts inv.subtotal =
          (if siptrunk_base inv.subtotal - (siptrunk_raw inv.subtotal).sum ≠ 0 then
            addToLast (siptrunk_raw inv.subtotal)
              (siptrunk_base inv.subtotal - (siptrunk_raw inv.subtotal).sum)
          else siptrunk_raw inv.subtotal)
      ∧ ([siptrunk_sign inv.subtotal * 30000, siptrunk_sign inv.subtotal * 20000] ++
          siptrunk_var_amounts inv.subtotal).sum = inv.subtotal
      ∧ ([siptrunk_sign inv.subtotal * 30000, siptrunk_sign inv.subtotal * 20000] ++
          siptrunk_var_amounts inv.subtotal).length = 7 := by
  have hmap := siptrunk_all_map_subtotal inv
  have hsum := siptrunk_all_sum inv
  refine ⟨?_, rfl, ?_, ?_⟩
  · unfold _build_siptrunk
    rw [if_neg hconcept]
    have hdiff : inv.subtotal -
        ((siptrunk_all_lines inv).map (fun l => l.subtotal_assigned)).sum = 0 := by
      rw [hsum]; ring
    simp only [hdiff]
    rw [if_neg (by simp)]
    show some ((siptrunk_all_lines inv).map (fun l => l.subtotal_assigned)) = _
    rw [hmap]
  · rw [← hmap]; exact hsum
  · rw [List.length_append, siptrunk_var_amounts_length]; rfl

/-- Witness for C6: a credit-note Claro siptrunk invoice with subtotal
-1000.00 and the default concept. -/
theorem claro_siptrunk_schedule_witness :
    line_subtotals (_build_siptrunk
        ⟨1254902, "CONECEL", "000000001", -100000, 1500, none, some "siptrunk", none, [],
          none, none, none⟩) =
      some ([siptrunk_sign (-100000) * 30000, siptrunk_sign (-100000) * 20000] ++
        siptrunk_var_amounts (-100000)) :=
  (claro_siptrunk_schedule
    ⟨1254902, "CONECEL", "000000001", -100000, 1500, none, some "siptrunk", none, [],
      none, none, none⟩ (by decide)).1

/-- `build_lines_for_vendor` of `rules/vendor_9999999_dummy.py` (the only
other module the registry accepts, see `registered_vendor_rules`). -/
def build_lines_for_dummy (inv : InvoiceInput) : Except Err (List LineItem) :=
  let concept_general := concept_or_default inv.service_concept "Dummy"
  if has_custom_split inv then
    match validate_and_compute_allocations inv.subtotal (inv.alloc_mode.getD "")
        inv.allocations 1 with
    | .error e => .error e
    | .ok pairs =>
        .ok (pairs.map (fun p =>
          mk_line "Dummy_table" (alloc_concept p.1.concept concept_general)
            p.1.cc p.1.gl_account p.2 inv.iva_rate))
  else
    .ok [mk_line "Dummy_table" concept_general (inv.extras_cc.getD 1100036)
           (inv.extras_gl_account.getD 7418000000) inv.subtotal inv.iva_rate]

/-- Characters kept verbatim by `_slug_table_name`: `[0-9A-Za-z_]`. -/
def isSlugKeep (c : Char) : Bool := c.isAlphanum || c = '_'

/-- `re.sub(r"_+", "_", ...)`: collapse runs of underscores to one. -/
def collapseUnderscores : List Char → List Char
  | [] => []
  | c :: rest =>
      match c, collapseUnderscores rest with
      | '_', '_' :: t => '_' :: t
      | _, t => c :: t

/-- `.strip("_")`: drop leading and trailing underscores. -/
def stripUnderscores (l : List Char) : List Char :=
  ((l.dropWhile (fun c => c = '_')).reverse.dropWhile (fun c => c = '_')).reverse

/-- `.rstrip("_")`: drop trailing underscores. -/
def rstripUnderscores (l : List Char) : List Char :=
  (l.reverse.dropWhile (fun c => c = '_')).reverse

/-- `_slug_table_name` from `rules/vendor_generic.py`:
`<NormalizedVendorName>_<vendor_id>_table`.  The source first replaces
whitespace runs by one `_`, then every other character outside
`[0-9A-Za-z_]` by `_`, then collapses `_` runs; replacing each whitespace
character pointwise commutes with the later collapse, so the two pointwise
maps below compute the same string. -/
def _slug_table_name (vendor_name : String) (vendor_id : Int) : String :=
  let cs := (pyStrip vendor_name).toList
  let cs := cs.map (fun c => if c.isWhitespace then '_' else c)
  let cs := cs.map (fun c => if isSlugKeep c then c else '_')
  let cs := stripUnderscores (collapseUnderscores cs)
  let base := if cs = [] then "Vendor".toList else cs
  let base := if 50 < base.length then rstripUnderscores (base.take 50) else base
  String.mk base ++ "_" ++ toString vendor_id ++ "_table"

/-- `build_lines_generic` from `rules/vendor_generic.py`: the generic
fallback for vendors without a dedicated rule.  N lines from the custom
split when one is configured, otherwise one line with the CC/GL taken from
`extras` (`MissingAccountError` when absent). -/
def build_lines_generic (inv : InvoiceInput) : Except Err (List LineItem) :=
  let table_name := _slug_table_name inv.vendor_name inv.vendor_id
  let concept_general := concept_or_default inv.service_concept "Concepto personalizado"
  if has_custom_split inv then
    match validate_and_compute_allocations inv.subtotal (inv.alloc_mode.getD "")
        inv.allocations 1 with
    | .error e => .error e
    | .ok pairs =>
        .ok (pairs.map (fun p =>
          let c := alloc_concept p.1.concept concept_general
          mk_line table_name (if c = "" then concept_general else c)
            p.1.cc p.1.gl_account p.2 inv.iva_rate))
  else
    match inv.extras_cc, inv.extras_gl_account with
    | some cc, some gl =>
        .ok [mk_line table_name concept_general cc gl inv.subtotal inv.iva_rate]
    | _, _ => .error .missingAccount

deriving instance DecidableEq for Except

/-- The dispatch table built by `registry._load_rules`.  The discovery
loop imports every `rules/vendor_*.py` module and registers those exposing
an `int` `VENDOR_ID` together with a callable `build_lines_for_vendor`.
Exactly two modules qualify: `vendor_9999999_dummy` and
`vendor_1260177_movistar`.  The remaining vendor modules (claro, cirion,
akros, eikon, puntonet, sipbox) export only `build_lines_for_<name>`
without `VENDOR_ID`, and `vendor_generic` exports `build_lines_generic`;
all of them are skipped by the defensive `isinstance`/`callable` checks,
and the duplicate-id check never fires. -/
def registered_vendor_rules : List (Int × (InvoiceInput → Except Err (List LineItem))) :=
  [(9999999, build_lines_for_dummy), (1260177, build_lines_for_movistar)]

/-- `registry.build_lines`: dispatch on `invoice.vendor_id`, raising
`ValueError("No hay regla implementada aún para vendor_id=...")` when no
rule is registered. -/
def build_lines (inv : InvoiceInput) : Except Err (List LineItem) :=
  match registered_vendor_rules.lookup inv.vendor_id with
  | some fn => fn inv
  | none => .error (.unknownVendorRule inv.vendor_id)

/-- C3 (failing input): for a well-formed Cirion invoice — a real vendor
with no registered strategy — `build_lines` raises instead of applying the
generic fallback, although `build_lines_generic` succeeds on the very same
invoice and would return one line into `Cirion_1254926_table`. -/
theorem build_lines_unregistered_vendor_raises :
    build_lines
        ⟨1254926, "Cirion", "000000472", 250000, 1500, some "Internet", none, none, [],
          some 7475036, some 7418000000, none⟩ =
      .error (.unknownVendorRule 1254926)
    ∧ build_lines_generic
        ⟨1254926, "Cirion", "000000472", 250000, 1500, some "Internet", none, none, [],
          some 7475036, some 7418000000, none⟩ =
      .ok [mk_line "Cirion_1254926_table" "Internet" 7475036 7418000000 250000 1500] :=
  ⟨rfl, by decide⟩

/-- Python `str.zfill(width)` for the digit-only strings
`normalize_bill_number` feeds it: left-pad with `'0'` to `width`.  (The
sign handling of general `zfill` is unreachable because the input contains
only digits.) -/
def zfill (width : Nat) (s : String) : String :=
  if width ≤ s.length then s
  else String.mk (List.replicate (width - s.length) '0') ++ s

/-- `normalize_bill_number` from `utils/money.py`.  `str.isdigit()` on the
already-nonempty stripped string is `all Char.isDigit`; the three raise
sites become the three validation errors. -/
def normalize_bill_number (raw : String) : Except Err String :=
  if pyStrip raw = "" then
    .error .validationEmpty
  else if ¬((pyStrip raw).toList.all Char.isDigit) then
    .error .validationNonDigit
  else if 9 < (pyStrip raw).length then
    .error .validationTooLong
  else
    .ok (zfill 9 (pyStrip raw))

lemma zfill_length (w : Nat) (s : String) (h : s.length ≤ w) :
    (zfill w s).length = w := by
  unfold zfill
  split
  · omega
  · show (String.mk (List.replicate (w - s.length) '0') ++ s).data.length = w
    have hdata : (String.mk (List.replicate (w - s.length) '0') ++ s).data =
        List.replicate (w - s.length) '0' ++ s.data := rfl
    rw [hdata, List.length_append, List.length_replicate]
    have : s.data.length = s.length := rfl
    omega

/-- C9: `normalize_bill_number` returns the 9-digit zero-padded form of
every all-digit trimmed input of length at most 9, and fails with the
empty-input validation error when the trimmed input is empty and with the
non-digit validation error when it contains any non-digit character. -/
theorem normalize_bill_number_spec (raw : String) :
    (pyStrip raw ≠ "" → (pyStrip raw).toList.all Char.isDigit = true →
        (pyStrip raw).length ≤ 9 →
        normalize_bill_number raw = .ok (zfill 9 (pyStrip raw)) ∧
          (zfill 9 (pyStrip raw)).length = 9)
    ∧ (pyStrip raw = "" → normalize_bill_number raw = .error .validationEmpty)
    ∧ (pyStrip raw ≠ "" → (pyStrip raw).toList.all Char.isDigit = false →
        normalize_bill_number raw = .error .validationNonDigit) := by
  refine ⟨?_, ?_, ?_⟩
  · intro hne hdig hlen
    refine ⟨?_, zfill_length 9 (pyStrip raw) hlen⟩
    unfold normalize_bill_number
    rw [if_neg hne, if_neg (not_not_intro hdig), if_neg (by omega)]
  · intro h
    unfold normalize_bill_number
    rw [if_pos h]
  · intro hne hdig
    unfold normalize_bill_number
    rw [if_neg hne,
      if_pos (show ¬((pyStrip raw).toList.all Char.isDigit = true) by
        rw [hdig]; exact Bool.false_ne_true)]

/-- Witness for C9: `"472"` normalizes to the 9-digit form
`"000000472"`. -/
theorem normalize_bill_number_spec_witness :
    normalize_bill_number "472" = .ok (zfill 9 (pyStrip "472")) ∧
      (zfill 9 (pyStrip "472")).length = 9 :=
  (normalize_bill_number_spec "472").1 (by decide) (by decide) (by decide)

/-- A backup file as `prune_backups` sees it: its name is assumed to match
the `*_backup_*` pattern with an allowed extension (the glob filter), and
`mtime` is its modification time in seconds. -/
structure BackupFile where
  name : String
  mtime : Int
deriving DecidableEq

/-- Newest-first comparison used by `backups.sort(key=mtime, reverse=True)`. -/
def newerEq (a b : BackupFile) : Prop := b.mtime ≤ a.mtime

instance : DecidableRel newerEq := fun a b => by
  unfold newerEq
  infer_instance

instance : IsTotal BackupFile newerEq :=
  ⟨fun a b => le_total b.mtime a.mtime⟩

instance : IsTrans BackupFile newerEq :=
  ⟨fun _ _ _ hab hbc => le_trans hbc hab⟩

/-- `prune_backups` from `excel/writer.py`, for a directory whose files all
match the backup pattern and under the claim's assumption that every
`unlink` succeeds.  `cutoff = now - timedelta(days=keep_days)`; phase 1
deletes every file with `mtime < cutoff`, phase 2 sorts the survivors by
modification time descending and deletes everything after the first
`keep_last_n`.  The value is the list of surviving files (newest first). -/
def prune_backups (files : List BackupFile) (keep_last_n : Nat)
    (keep_days now : Int) : List BackupFile :=
  let cutoff := now - keep_days * 86400
  let survivors := files.filter (fun f => !decide (f.mtime < cutoff))
  (survivors.insertionSort newerEq).take keep_last_n

/-- C8: assuming every deletion succeeds, `prune_backups` first deletes
exactly the files modified before the cutoff and then keeps only the
`keep_last_n` most recent survivors, so it leaves exactly
`min(keep_last_n, number of backups within keep_days)` files, all at or
after the cutoff and each at least as recent as every deleted survivor. -/
theorem prune_backups_retention (files : List BackupFile) (n : Nat)
    (keep_days now : Int) :
    (prune_backups files n keep_days now).length =
        min n (files.filter
          (fun f => !decide (f.mtime < now - keep_days * 86400))).length
    ∧ (∀ f ∈ prune_backups files n keep_days now,
        now - keep_days * 86400 ≤ f.mtime)
    ∧ (∀ f ∈ prune_backups files n keep_days now,
        ∀ g ∈ ((files.filter
            (fun f => !decide (f.mtime < now - keep_days * 86400))).insertionSort
              newerEq).drop n,
          g.mtime ≤ f.mtime) := by
  set cutoff := now - keep_days * 86400 with hcut
  set survivors := files.filter (fun f => !decide (f.mtime < cutoff)) with hsurv
  have hsorted : List.Sorted newerEq (survivors.insertionSort newerEq) :=
    List.sorted_insertionSort newerEq survivors
  have hperm : List.Perm (survivors.insertionSort newerEq) survivors :=
    List.perm_insertionSort newerEq survivors
  refine ⟨?_, ?_, ?_⟩
  · show ((survivors.insertionSort newerEq).take n).length = min n survivors.length
    rw [List.length_take, hperm.length_eq]
  · intro f hf
    have hf' : f ∈ survivors.insertionSort newerEq := List.mem_of_mem_take hf
    have hf'' : f ∈ survivors := hperm.mem_iff.mp hf'
    have := List.of_mem_filter hf''
    simp only [Bool.not_eq_true', decide_eq_false_iff_not, not_lt] at this
    exact this
  · intro f hf g hg
    have hsplit := (List.take_append_drop n (survivors.insertionSort newerEq)).symm
    rw [hsplit] at hsorted
    have hcross := (List.pairwise_append.mp hsorted).2.2
    exact hcross f hf g hg

/-- Witness for C8: two old backups and three recent ones with
`keep_last_n = 2` keep exactly the two most recent files. -/
theorem prune_backups_retention_witness :
    (prune_backups
        [⟨"a_backup_1.xlsx", 100⟩, ⟨"b_backup_2.xlsx", 987000⟩,
         ⟨"c_backup_3.xlsx", 990000⟩, ⟨"d_backup_4.xlsx", 980000⟩,
         ⟨"e_backup_5.xlsx", 200⟩] 2 10 1000000).length =
      min 2 ([⟨"a_backup_1.xlsx", 100⟩, ⟨"b_backup_2.xlsx", 987000⟩,
         ⟨"c_backup_3.xlsx", 990000⟩, ⟨"d_backup_4.xlsx", 980000⟩,
         ⟨"e_backup_5.xlsx", 200⟩].filter
          (fun f : BackupFile => !decide (f.mtime < 1000000 - 10 * 86400))).length :=
  (prune_backups_retention
    [⟨"a_backup_1.xlsx", 100⟩, ⟨"b_backup_2.xlsx", 987000⟩,
     ⟨"c_backup_3.xlsx", 990000⟩, ⟨"d_backup_4.xlsx", 980000⟩,
     ⟨"e_backup_5.xlsx", 200⟩] 2 10 1000000).1

/-- One persisted table row as the writer manipulates it: the values of
its `ID` and `Bill number` cells (used by duplicate deletion), the set of
column names the row writes (checked against the table headers on append),
and an abstract payload standing for the remaining cell contents. -/
structure RowData where
  id : Int
  bill : String
  fields : List String
  payload : Int
deriving DecidableEq

/-- `BASE_HEADERS` from `excel/writer.py`. -/
def BASE_HEADERS : List String :=
  ["Date", "Bill number", "ID", "Vendor", "Service/ concept", "CC", "GL account",
   "Subtotal assigned by CC", "% IVA", "IVA assigned by CC", "Total assigned by CC"]

/-- `EXTRA_HEADERS_BY_TABLE` from `excel/writer.py`. -/
def EXTRA_HEADERS_BY_TABLE : List (String × List String) :=
  [("Cirion_table", ["Bandwidth (MBPS)"]),
   ("Claro_siptrunk_table", ["Bandwidth (MBPS)", "Troncal SIP (channels)"]),
   ("Claro_SBC_table",
     ["Siptrunk (MBPS)", "Licences (Quantity)", "Siptrunk price", "Licences price"]),
   ("Movistar_table", ["Phone lines quantity"]),
   ("Claro_mobile_table", ["Phone lines quantity"])]

/-- `get_table_headers` from `excel/writer.py`. -/
def get_table_headers (table_name : String) : List String :=
  BASE_HEADERS ++ ((EXTRA_HEADERS_BY_TABLE.lookup table_name).getD [])

/-- A named table: header list plus data rows.  The sheet location,
bounding ranges and cell styles the source also tracks do not affect which
rows are stored and are not modelled. -/
structure TableData where
  headers : List String
  rows : List RowData
deriving DecidableEq

/-- The persisted ledger: a table for each name that exists. -/
def Ledger : Type := String → Option TableData

/-- `find_table`: locate a table by name anywhere in the workbook and
auto-create it (with that vendor family's header schema and no data rows)
when absent. -/
def find_table (L : Ledger) (table_name : String) : TableData :=
  (L table_name).getD ⟨get_table_headers table_name, []⟩

/-- The duplicate criterion of `delete_duplicates_in_table`:
`cell_id == vendor_id and str(cell_bill).strip() == bill_number` —
exactly the (ID, Bill number) pair, ignoring the date. -/
def matches_key (v : Int) (b : String) (r : RowData) : Bool :=
  r.id == v && pyStrip r.bill == b

/-- `delete_duplicates_in_table`: requires the `ID` and `Bill number`
columns (else `ExcelWriteError`), removes every row matching the key and
shrinks the table to close the gap. -/
def delete_duplicates_in_table (t : TableData) (v : Int) (b : String) :
    Except Err TableData :=
  if "ID" ∈ t.headers ∧ "Bill number" ∈ t.headers then
    .ok ⟨t.headers, t.rows.filter (fun r => !matches_key v b r)⟩
  else
    .error .missingKeyColumns

/-- `append_rows_to_table`: every written column must exist in the table
(else `ExcelWriteError`); the new rows are appended at the end of the
table's bounds. -/
def append_rows_to_table (t : TableData) (rows : List RowData) :
    Except Err TableData :=
  if rows.all (fun r => r.fields.all (fun h => t.headers.contains h)) then
    .ok ⟨t.headers, t.rows ++ rows⟩
  else
    .error .unknownColumn

/-- Replace one table of the in-memory workbook. -/
def update_ledger (L : Ledger) (table_name : String) (t : TableData) : Ledger :=
  fun n => if n = table_name then some t else L n

/-- The per-table loop of `apply_transaction`: for each target table in
caller order, find (or auto-create) it, delete duplicates by key, then
append the new rows; the first exception aborts the whole batch. -/
def apply_tables (L : Ledger) (txn : List (String × List RowData))
    (v : Int) (b : String) : Except Err Ledger :=
  match txn with
  | [] => .ok L
  | (tn, rows) :: rest =>
      match delete_duplicates_in_table (find_table L tn) v b with
      | .error e => .error e
      | .ok t1 =>
          match append_rows_to_table t1 rows with
          | .error e => .error e
          | .ok t2 => apply_tables (update_ledger L tn t2) rest v b

/-- `apply_transaction` from `excel/writer.py`, as a transition on the
persisted ledger.  The workbook is loaded once (an in-memory copy of
`persisted`), all edits happen on that copy, and `wb.save` runs only after
every table edit succeeded; `saveOk` is false when the save is rejected
with a `PermissionError` (file locked), in which case the underlying
format writes nothing.  The result pairs the returned/raised outcome with
the persisted ledger after the call.  The session backup and retention
pruning touch only the backup directory, never the ledger, and are
modelled separately by `prune_backups`. -/
def apply_transaction (persisted : Ledger) (txn : List (String × List RowData))
    (v : Int) (b : String) (saveOk : Bool) : Except Err Ledger × Ledger :=
  match apply_tables persisted txn v b with
  | .error e => (.error e, persisted)
  | .ok L' => if saveOk then (.ok L', L') else (.error .saveRejected, persisted)

lemma delete_ok_shape (t : TableData) (v : Int) (b : String) (t1 : TableData)
    (h : delete_duplicates_in_table t v b = .ok t1) :
    t1 = ⟨t.headers, t.rows.filter (fun r => !matches_key v b r)⟩ := by
  unfold delete_duplicates_in_table at h
  split at h
  · exact ((Except.ok.injEq _ _).mp h).symm
  · exact absurd h (by simp)

lemma append_ok_shape (t : TableData) (rows : List RowData) (t2 : TableData)
    (h : append_rows_to_table t rows = .ok t2) :
    t2 = ⟨t.headers, t.rows ++ rows⟩ := by
  unfold append_rows_to_table at h
  split at h
  · exact ((Except.ok.injEq _ _).mp h).symm
  · exact absurd h (by simp)

lemma apply_tables_not_mem (txn : List (String × List RowData)) :
    ∀ (L : Ledger) (v : Int) (b : String) (tn : String) (L' : Ledger),
      tn ∉ txn.map Prod.fst → apply_tables L txn v b = .ok L' → L' tn = L tn := by
  induction txn with
  | nil =>
    intro L v b tn L' _ h
    rw [← (Except.ok.injEq _ _).mp h]
  | cons hd rest ih =>
    intro L v b tn L' hnot h
    unfold apply_tables at h
    cases hdel : delete_duplicates_in_table (find_table L hd.1) v b with
    | error e => simp only [hdel] at h; exact absurd h (by simp)
    | ok t1 =>
      simp only [hdel] at h
      cases happ : append_rows_to_table t1 hd.2 with
      | error e => simp only [happ] at h; exact absurd h (by simp)
      | ok t2 =>
        simp only [happ] at h
        have hne : tn ≠ hd.1 := by
          intro hc
          exact hnot (by rw [hc]; exact List.mem_map_of_mem Prod.fst (List.mem_cons_self _ _))
        have hrest : tn ∉ rest.map Prod.fst := fun hc =>
          hnot (List.mem_cons_of_mem _ hc)
        have := ih (update_ledger L hd.1 t2) v b tn L' hrest h
        rw [this]
        unfold update_ledger
        rw [if_neg hne]

lemma apply_tables_mem (txn : List (String × List RowData)) :
    ∀ (L : Ledger) (v : Int) (b : String) (tn : String) (rows : List RowData)
      (L' : Ledger),
      (txn.map Prod.fst).Nodup → (tn, rows) ∈ txn →
      apply_tables L txn v b = .ok L' →
      L' tn = some ⟨(find_table L tn).headers,
        (find_table L tn).rows.filter (fun r => !matches_key v b r) ++ rows⟩ := by
  induction txn with
  | nil => intro _ _ _ _ _ _ _ hmem; exact absurd hmem (by simp)
  | cons hd rest ih =>
    intro L v b tn rows L' hnd hmem h
    have hnd0 : (hd.1 :: rest.map Prod.fst).Nodup := by
      rw [List.map_cons] at hnd
      exact hnd
    have hnd' := List.nodup_cons.mp hnd0
    unfold apply_tables at h
    cases hdel : delete_duplicates_in_table (find_table L hd.1) v b with
    | error e => simp only [hdel] at h; exact absurd h (by simp)
    | ok t1 =>
      simp only [hdel] at h
      cases happ : append_rows_to_table t1 hd.2 with
      | error e => simp only [happ] at h; exact absurd h (by simp)
      | ok t2 =>
        simp only [happ] at h
        rcases List.mem_cons.mp hmem with hhd | htl
        · have htn : hd.1 = tn := by rw [← hhd]
          have hrows : hd.2 = rows := by rw [← hhd]
          have hnotrest : tn ∉ rest.map Prod.fst := by rw [← htn]; exact hnd'.1
          have hfix := apply_tables_not_mem rest (update_ledger L hd.1 t2) v b tn L'
            hnotrest h
          rw [hfix]
          unfold update_ledger
          rw [if_pos htn.symm]
          rw [delete_ok_shape _ _ _ _ hdel] at happ
          rw [append_ok_shape _ _ _ happ]
          rw [htn, hrows]
        · have htn_ne : tn ≠ hd.1 := by
            intro hc
            apply hnd'.1
            rw [← hc]
            exact List.mem_map_of_mem Prod.fst htl
          have hfind : find_table (update_ledger L hd.1 t2) tn = find_table L tn := by
            unfold find_table update_ledger
            rw [if_neg htn_ne]
          have := ih (update_ledger L hd.1 t2) v b tn rows L' hnd'.2 htl h
          rw [hfind] at this
          exact this

lemma apply_transaction_ok_elim (persisted : Ledger)
    (txn : List (String × List RowData)) (v : Int) (b : String) (saveOk : Bool)
    (L' : Ledger) (h : (apply_transaction persisted txn v b saveOk).1 = .ok L') :
    apply_tables persisted txn v b = .ok L' ∧ saveOk = true := by
  unfold apply_transaction at h
  cases htab : apply_tables persisted txn v b with
  | error e =>
    simp only [htab] at h
    exact absurd h (by simp)
  | ok L0 =>
    simp only [htab] at h
    cases saveOk with
    | false => simp at h
    | true =>
      simp at h
      exact ⟨by rw [h], rfl⟩

lemma filter_not_matches_idem (v : Int) (b : String) (X : List RowData) :
    (X.filter (fun r => !matches_key v b r)).filter (fun r => !matches_key v b r) =
      X.filter (fun r => !matches_key v b r) := by
  rw [List.filter_filter]
  exact List.filter_congr (fun a _ => by cases matches_key v b a <;> rfl)

/-- C5: after `apply_transaction` succeeds for key `(vendor_id,
bill_number)`, the target table holds exactly its previous non-matching
rows followed by the new rows, so every row matching the key — matched on
exactly this pair, ignoring the date — is one of the newly appended rows;
replaying a transaction for the same key whose first batch consisted of
key-matching rows leaves the table exactly as if only the second call had
run, which is the duplicate-replacement uniqueness invariant. -/
theorem apply_transaction_duplicate_key
    (L : Ledger) (txn : List (String × List RowData)) (v : Int) (b : String)
    (saveOk : Bool) (L' : Ledger) (tn : String) (rows : List RowData)
    (hnd : (txn.map Prod.fst).Nodup) (hmem : (tn, rows) ∈ txn)
    (hok : (apply_transaction L txn v b saveOk).1 = .ok L') :
    L' tn = some ⟨(find_table L tn).headers,
        (find_table L tn).rows.filter (fun r => !matches_key v b r) ++ rows⟩
    ∧ (∀ t, L' tn = some t → ∀ r ∈ t.rows, matches_key v b r = true → r ∈ rows)
    ∧ (∀ (txn2 : List (String × List RowData)) (rows2 : List RowData) (L'' : Ledger),
        (txn2.map Prod.fst).Nodup → (tn, rows2) ∈ txn2 →
        (∀ r ∈ rows, matches_key v b r = true) →
        (apply_transaction L' txn2 v b saveOk).1 = .ok L'' →
        L'' tn = some ⟨(find_table L tn).headers,
          (find_table L tn).rows.filter (fun r => !matches_key v b r) ++ rows2⟩) := by
  have htab := (apply_transaction_ok_elim L txn v b saveOk L' hok).1
  have h1 := apply_tables_mem txn L v b tn rows L' hnd hmem htab
  refine ⟨h1, ?_, ?_⟩
  · intro t ht r hr hmatch
    rw [h1] at ht
    have ht' : t = ⟨(find_table L tn).headers,
        (find_table L tn).rows.filter (fun r => !matches_key v b r) ++ rows⟩ :=
      (Option.some.inj ht).symm
    rw [ht'] at hr
    rcases List.mem_append.mp hr with hf | hr2
    · have hkeep := List.of_mem_filter hf
      rw [hmatch] at hkeep
      exact absurd hkeep (by simp)
    · exact hr2
  · intro txn2 rows2 L'' hnd2 hmem2 hall hok2
    have htab2 := (apply_transaction_ok_elim L' txn2 v b saveOk L'' hok2).1
    have h2 := apply_tables_mem txn2 L' v b tn rows2 L'' hnd2 hmem2 htab2
    have hfind : find_table L' tn = ⟨(find_table L tn).headers,
        (find_table L tn).rows.filter (fun r => !matches_key v b r) ++ rows⟩ := by
      unfold find_table
      rw [h1]
      rfl
    rw [h2, hfind]
    have hrows_nil : rows.filter (fun r => !matches_key v b r) = [] := by
      rw [List.filter_eq_nil_iff]
      intro a ha
      rw [hall a ha]
      simp
    simp only [List.filter_append, filter_not_matches_idem, hrows_nil, List.append_nil]

/-- Witness for C5: inserting one key-matching row into an empty ledger. -/
theorem apply_transaction_duplicate_key_witness :
    update_ledger (fun _ => none) "Movistar_table"
        ⟨get_table_headers "Movistar_table",
          [⟨7, "000000123", ["ID", "Bill number"], 1⟩]⟩ "Movistar_table" =
      some ⟨(find_table (fun _ => none) "Movistar_table").headers,
        (find_table (fun _ => none) "Movistar_table").rows.filter
            (fun r => !matches_key 7 "000000123" r) ++
          [⟨7, "000000123", ["ID", "Bill number"], 1⟩]⟩ :=
  (apply_transaction_duplicate_key (fun _ => none)
    [("Movistar_table", [⟨7, "000000123", ["ID", "Bill number"], 1⟩])] 7 "000000123"
    true
    (update_ledger (fun _ => none) "Movistar_table"
      ⟨get_table_headers "Movistar_table",
        [⟨7, "000000123", ["ID", "Bill number"], 1⟩]⟩)
    "Movistar_table" [⟨7, "000000123", ["ID", "Bill number"], 1⟩]
    (by decide) (by decide) rfl).1

/-- C7: whenever `apply_transaction` results in an error — duplicate
deletion, row append, or a rejected save — the persisted ledger is
unchanged from the start of the call; the save runs only after every
in-memory table edit succeeded, and only a successful call updates the
persisted ledger. -/
theorem apply_transaction_atomic (persisted : Ledger)
    (txn : List (String × List RowData)) (v : Int) (b : String) (saveOk : Bool) :
    (∀ e, (apply_transaction persisted txn v b saveOk).1 = .error e →
      (apply_transaction persisted txn v b saveOk).2 = persisted)
    ∧ (∀ L', (apply_transaction persisted txn v b saveOk).1 = .ok L' →
      (apply_transaction persisted txn v b saveOk).2 = L' ∧ saveOk = true) := by
  constructor
  · intro e he
    unfold apply_transaction at he ⊢
    cases htab : apply_tables persisted txn v b with
    | error e' => simp
    | ok L0 =>
      cases saveOk with
      | false => simp
      | true =>
        rw [htab] at he
        simp at he
  · intro L' hok
    have h := apply_transaction_ok_elim persisted txn v b saveOk L' hok
    unfold apply_transaction
    simp only [h.1, h.2]
    simp

/-- Witness for C7: a transaction against a table lacking the `ID` column
fails and leaves the persisted ledger untouched. -/
theorem apply_transaction_atomic_witness :
    (apply_transaction (fun _ => some ⟨["X"], []⟩) [("T", [])] 1 "b" true).2 =
      (fun _ => some ⟨["X"], []⟩) :=
  (apply_transaction_atomic (fun _ => some ⟨["X"], []⟩) [("T", [])] 1 "b" true).1
    .missingKeyColumns rfl
